import Mathlib

/-!
Shallow embedding of the series ingestion and caching engine of DicomBrowser
(src/dicombrowser/dicom.py, src/dicombrowser/dicombrowser.py, and the legacy
copies in src/DicomBrowser/dicom.py).  Numeric pixel and rescale values are
modelled as rationals; Python attribute values reaching `float(...)` are
modelled by `PyVal`; fallible operations return `Option` or `Except`.
-/

/-- A Python value stored in a rescale attribute slot: a number, a numeric
string (one that `float` parses), a non-numeric string, or `None`. -/
inductive PyVal where
  | pynum (q : ℚ)
  | pynumstr (q : ℚ)
  | pystr (s : String)
  | pynone
deriving DecidableEq

/-- Python truthiness of a `PyVal`: 0, the empty string and `None` are falsy. -/
def pyTruthy : PyVal → Bool
  | .pynum q => decide (q ≠ 0)
  | .pynumstr _ => true
  | .pystr s => decide (s ≠ "")
  | .pynone => false

/-- Python `float(v)`: numbers and numeric strings convert, a non-numeric
string raises `ValueError` (modelled as `none`); `None` would raise
`TypeError` but is only ever seen behind an `or` default, so it is
unreachable in the embedded code paths. -/
def pyFloat : PyVal → Option ℚ
  | .pynum q => some q
  | .pynumstr q => some q
  | .pystr _ => none
  | .pynone => none

/-- Python `v or d`: replace a falsy value by the default. -/
def pyOr (v d : PyVal) : PyVal := if pyTruthy v then v else d

/-- The slice of a pydicom dataset that `get_scaled_image` reads: the two
rescale attributes (absent when `dcm.get` would miss) and the pixel payload
(`none` models `dcm.pixel_array` raising for a file without pixel data). -/
structure Dcm where
  rescaleSlope : Option PyVal
  rescaleIntercept : Option PyVal
  pixel_data : Option (List ℚ)
deriving DecidableEq

/-- `float(dcm.get(name, d) or d)` from dicom.py:96-97, with the `ValueError`
of a non-numeric truthy value surfacing as `none`. -/
def rescale_param (attr : Option PyVal) (d : ℚ) : Option ℚ :=
  pyFloat (pyOr (attr.getD (.pynum d)) (.pynum d))

/-- `get_scaled_image` (dicombrowser/dicom.py:93-101): scale the pixel array
by slope and intercept; any `KeyError`/`ValueError`/`AttributeError` on the
way (non-numeric rescale value, missing pixel payload) yields `None`. -/
def get_scaled_image (dcm : Dcm) : Option (List ℚ) :=
  match rescale_param dcm.rescaleSlope 1 with
  | none => none
  | some rslope =>
    match rescale_param dcm.rescaleIntercept 0 with
    | none => none
    | some rinter =>
      match dcm.pixel_data with
      | none => none
      | some px => some (px.map (fun x => x * rslope + rinter))

/-- An n-dimensional array: its shape plus the element at each index list. -/
structure NDArray where
  shape : List ℕ
  data : List ℕ → ℚ

/-- `shape[-1] in (1, 3, 4)`: the trailing dimension looks like channels. -/
def isColorLast (shape : List ℕ) : Bool :=
  decide (shape.getLastD 0 = 1 ∨ shape.getLastD 0 = 3 ∨ shape.getLastD 0 = 4)

/-- `color_dim = ndim > 2 and shape[-1] in (1, 3, 4)` (dicom.py:73). -/
def color_dim (shape : List ℕ) : Bool :=
  decide (2 < shape.length) && isColorLast shape

/-- The number of trailing dimensions left unsliced (`stop`, dicom.py:88). -/
def num_stop (shape : List ℕ) : ℕ := if color_dim shape then 3 else 2

/-- `get_2d_equivalent_image` (dicombrowser/dicom.py:69-90): pass small-rank
or 2D-with-channels arrays through, otherwise index every leading dimension
at its middle (`s // 2`) and keep the trailing `stop` dimensions whole. -/
def get_2d_equivalent_image (img : NDArray) : NDArray :=
  let ndim := img.shape.length
  if ndim ≤ 2 || (decide (ndim = 3) && color_dim img.shape) then img
  else
    ⟨img.shape.drop (ndim - num_stop img.shape),
     fun js =>
       img.data (((img.shape.take (ndim - num_stop img.shape)).map (fun s => s / 2)) ++ js)⟩

/-- The distinct temporal-attribute values of a series, as a finite set:
`set(int(loadattr.get(attr, 0)) for loadattr in self.loadattrs)` with each
load-attribute map reduced to its optional integer temporal value. -/
def distinct_times (loadattrs : List (Option ℤ)) : Finset ℤ :=
  (loadattrs.map (fun a => a.getD 0)).toFinset

/-- `sorted(set(...))` from dicom.py:277: the distinct values in increasing
order (insertion sort of the deduplicated list, so that the definition
evaluates; it is proved equal to `Finset.sort` of `distinct_times` below). -/
def trigger_times (loadattrs : List (Option ℤ)) : List ℤ :=
  List.insertionSort (· ≤ ·) ((loadattrs.map (fun a => a.getD 0)).dedup)

/-- `DicomSeries.get_timestep_spec` (dicombrowser/dicom.py:275-286, same code
as legacy getTimestepSpec): returns the (start, interval, count) triple, where
a singleton value list is first duplicated and `np.average` of the consecutive
differences is the interval. -/
def get_timestep_spec (loadattrs : List (Option ℤ)) : ℚ × ℚ × ℚ :=
  let times := trigger_times loadattrs
  if times = [] ∨ times = [0] then (0, 0, 0)
  else
    let times2 := if times.length = 1 then times ++ times else times
    let diffs : List ℤ := List.zipWith (fun a b => b - a) times2 times2.tail
    ((times2.headD 0 : ℚ), (diffs.sum : ℚ) / (diffs.length : ℚ), (times2.length : ℚ))

/-- A filename: a Python string viewed as its sequence of characters, so that
the lexicographic string order is the lexicographic order on the list. -/
abbrev Filename := List Char

/-- `DicomSeries.sort_filenames` (dicombrowser/dicom.py:223-225), also inlined
at dicombrowser/dicombrowser.py:148:
`zip(*sorted(zip(self.filenames, self.loadattrs)))`.  Python sorts the pairs
lexicographically; when the filenames are pairwise distinct this only ever
compares first components, which is what the sort below does. -/
def sort_filenames {A : Type} (filenames : List Filename) (loadattrs : List A) :
    List Filename × List A :=
  let sortedPairs :=
    (filenames.zip loadattrs).insertionSort (fun p q => p.1 ≤ q.1)
  (sortedPairs.map Prod.fst, sortedPairs.map Prod.snd)

instance {A : Type} : IsTotal (Filename × A) (fun p q => p.1 ≤ q.1) :=
  ⟨fun p q => le_total p.1 q.1⟩

instance {A : Type} : IsTrans (Filename × A) (fun p q => p.1 ≤ q.1) :=
  ⟨fun _ _ _ h h' => le_trans h h'⟩

/-- One successfully parsed candidate file: the filename together with the
optional SeriesInstanceUID load attribute. -/
structure ParsedFile where
  filename : Filename
  series_uid : Option String
deriving DecidableEq

/-- One grouping step of `load_dicom_dir` (dicom.py:139-143): look up or
create the series keyed by `sid` and append the filename to it.  The series
dictionary is modelled as an association list in insertion order. -/
def add_file_to (groups : List (String × List Filename)) (sid : String) (fn : Filename) :
    List (String × List Filename) :=
  if groups.any (fun g => g.1 == sid) then
    groups.map (fun g => if g.1 = sid then (g.1, g.2 ++ [fn]) else g)
  else groups ++ [(sid, [fn])]

/-- The series grouping performed by `load_dicom_dir` over the per-file parse
results (`none` models a file skipped with `InvalidDicomError`); the series
key defaults to `"???"` when the uid attribute is absent. -/
def group_series (results : List (Option ParsedFile)) : List (String × List Filename) :=
  results.foldl
    (fun gs r =>
      match r with
      | none => gs
      | some p => add_file_to gs (p.series_uid.getD "???") p.filename)
    []

/-- The acceptance step of `DicomBrowser._load_source_thread`
(dicombrowser/dicombrowser.py:139-152): the freshly loaded source is appended
to the source list only when the series list is non-empty and every series
has at least one file; otherwise the state is left untouched. -/
def load_source_step (srclist : List (String × List (String × List Filename)))
    (src : String) (results : List (Option ParsedFile)) :
    List (String × List (String × List Filename)) :=
  let series := group_series results
  if !series.isEmpty && series.all (fun s => !s.2.isEmpty) then srclist ++ [(src, series)]
  else srclist

/-- The filesystem a scan runs against: which root directories exist, and the
names of the plain files found recursively beneath each root. -/
structure FileSys where
  dirs : List String
  files : String → List Filename

/-- The reserved index filename `"dicomdir"`, as a character list. -/
def dicomdir_name : Filename := ['d', 'i', 'c', 'o', 'm', 'd', 'i', 'r']

/-- The scan line of `load_dicom_dir` (dicombrowser/dicom.py:123):
`filter(os.path.isfile, glob(rootdir + "/**", recursive=True))`.  A glob
pattern under a non-existent root matches nothing; no name-based filtering is
applied. -/
def scan_files (fs : FileSys) (rootdir : String) : List Filename :=
  if rootdir ∈ fs.dirs then fs.files rootdir else []

/-- The legacy scan of `loadDicomDir` (DicomBrowser/dicom.py:74-76): walk the
tree (which yields nothing when the root does not exist) and drop every file
whose lowercased name (`f.lower()`) is the reserved index name. -/
def scan_files_legacy (fs : FileSys) (rootdir : String) : List Filename :=
  (if rootdir ∈ fs.dirs then fs.files rootdir else []).filter
    (fun f => f.map Char.toLower != dicomdir_name)

/-- Errors the directory loader could in principle raise. -/
inductive DicomError where
  | notFound
deriving DecidableEq

/-- `load_dicom_dir` (dicombrowser/dicom.py:114-149): scan the root, return
the empty series list when no files are found, otherwise parse every file
(`parse f = none` models a file skipped with `InvalidDicomError`; `some sid?`
is the optional series uid of a successful parse) and group by series.  The
`Except` layer records that the Python function body contains no raise site:
every path returns normally. -/
def load_dicom_dir (fs : FileSys) (parse : Filename → Option (Option String))
    (rootdir : String) : Except DicomError (List (String × List Filename)) :=
  let allfiles := scan_files fs rootdir
  if allfiles.length = 0 then .ok []
  else
    .ok (group_series (allfiles.map (fun f => (parse f).map (fun sid => ⟨f, sid⟩))))

/-- The per-series mutable state touched by the cache accessors: the filename
list, the attribute cache and the pixel cache (a cached entry may itself be
the `None` no-image marker, hence the nested `Option`). -/
structure SeriesState where
  filenames : List Filename
  attrcache : ℕ → Option Dcm
  imgcache : ℕ → Option (Option (List ℚ))

/-- `DicomSeries.get_attr_object` (dicombrowser/dicom.py:227-233): return the
cached dataset, reading the file (header-only) and memoizing on a miss.  The
`read_file` argument stands for the filesystem at call time; a failing read
propagates (`Except.error`). -/
def get_attr_object (read_file : Filename → Option Dcm) (st : SeriesState) (index : ℕ) :
    Except Unit (Dcm × SeriesState) :=
  match st.attrcache index with
  | some dcm => .ok (dcm, st)
  | none =>
    match read_file (st.filenames.getD index []) with
    | none => .error ()
    | some dcm =>
      .ok (dcm, { st with attrcache := fun j => if j = index then some dcm else st.attrcache j })

/-- `DicomSeries.get_pixel_data` (dicombrowser/dicom.py:261-268): return the
cached image, otherwise read the file, build the scaled image (possibly the
`None` marker) and memoize it.  Only `get_scaled_image` absorbs failures; a
failing `read_file` propagates (`Except.error`). -/
def get_pixel_data (read_file : Filename → Option Dcm) (st : SeriesState) (index : ℕ) :
    Except Unit (Option (List ℚ) × SeriesState) :=
  match st.imgcache index with
  | some img => .ok (img, st)
  | none =>
    match read_file (st.filenames.getD index []) with
    | none => .error ()
    | some dcm =>
      let img := get_scaled_image dcm
      .ok (img, { st with imgcache := fun j => if j = index then some img else st.imgcache j })

/-- The filesystem state in which every read fails to parse. -/
def unreadable_fs : Filename → Option Dcm := fun _ => none

/-- A one-file series with empty caches. -/
def fresh_series : SeriesState := ⟨[['f']], fun _ => none, fun _ => none⟩

/-- A series whose caches are already populated at every index. -/
def cached_series : SeriesState :=
  ⟨[['f']], fun _ => some ⟨none, none, some [2]⟩, fun _ => some (some [2])⟩

/-- A filesystem with no roots at all. -/
def no_roots_fs : FileSys := ⟨[], fun _ => []⟩

/-- A root containing a DICOMDIR index file next to a data file. -/
def dicomdir_fs : FileSys :=
  ⟨["r"], fun _ => [['D', 'I', 'C', 'O', 'M', 'D', 'I', 'R'], ['a', '.', 'd', 'c', 'm']]⟩

/-- The rank-4 volume of shape (5, 3, 8, 8) from the claim. -/
def volume_image : NDArray := ⟨[5, 3, 8, 8], fun js => (js.headD 0 : ℚ)⟩

/-- The RGB image of shape (8, 8, 3) from the claim. -/
def rgb_image : NDArray := ⟨[8, 8, 3], fun js => (js.headD 0 : ℚ)⟩

/-! Helper lemmas shared by the claim theorems. -/

theorem rescale_param_none (d : ℚ) : rescale_param none d = some d := by
  unfold rescale_param pyOr
  simp only [Option.getD_none]
  split <;> rfl

theorem rescale_param_falsy (v : PyVal) (hv : pyTruthy v = false) (d : ℚ) :
    rescale_param (some v) d = some d := by
  unfold rescale_param pyOr
  simp only [Option.getD_some, hv, Bool.false_eq_true, if_false]
  rfl

theorem get_scaled_image_eq (dcm : Dcm) (rslope rinter : ℚ) (px : List ℚ)
    (hs : rescale_param dcm.rescaleSlope 1 = some rslope)
    (hi : rescale_param dcm.rescaleIntercept 0 = some rinter)
    (hp : dcm.pixel_data = some px) :
    get_scaled_image dcm = some (px.map (fun x => x * rslope + rinter)) := by
  unfold get_scaled_image
  rw [hs, hi, hp]


/-! ## Claim C6 -/

/-- C6, counterexample: for a file whose RescaleSlope is present, truthy and
non-numeric (the string "abc"), `get_scaled_image` returns `None` rather than
the claimed default-scaled image `raw * 1 + 0`. -/
theorem c6_counterexample :
    get_scaled_image ⟨some (.pystr "abc"), none, some [1]⟩ = none ∧
      get_scaled_image ⟨some (.pystr "abc"), none, some [1]⟩ ≠
        some ([1].map (fun x : ℚ => x * 1 + 0)) :=
  ⟨rfl, fun h => Option.noConfusion h⟩

/-- C6, amended: `get_scaled_image` returns `pixel_array * slope + intercept`
where slope defaults to 1 and intercept to 0 whenever the corresponding
attribute is absent or present-but-falsy; in particular a file missing both
attributes keeps its raw payload unchanged.  (A present, truthy, non-numeric
value instead makes the function return `None`.) -/
theorem c6_rescale_defaults (dcm : Dcm) (px : List ℚ)
    (hpx : dcm.pixel_data = some px)
    (hs : dcm.rescaleSlope = none ∨ ∃ v, dcm.rescaleSlope = some v ∧ pyTruthy v = false)
    (hi : dcm.rescaleIntercept = none ∨ ∃ v, dcm.rescaleIntercept = some v ∧ pyTruthy v = false) :
    get_scaled_image dcm = some (px.map (fun x => x * 1 + 0)) ∧
      px.map (fun x => x * 1 + 0) = px := by
  have h1 : rescale_param dcm.rescaleSlope 1 = some 1 := by
    rcases hs with h | ⟨v, hv, hfv⟩
    · rw [h]; exact rescale_param_none 1
    · rw [hv]; exact rescale_param_falsy v hfv 1
  have h2 : rescale_param dcm.rescaleIntercept 0 = some 0 := by
    rcases hi with h | ⟨v, hv, hfv⟩
    · rw [h]; exact rescale_param_none 0
    · rw [hv]; exact rescale_param_falsy v hfv 0
  refine ⟨get_scaled_image_eq dcm 1 0 px h1 h2 hpx, ?_⟩
  have hfun : (fun x : ℚ => x * 1 + 0) = fun x => x := by funext x; ring
  rw [hfun, List.map_id']

/-- C6, witness: a file with neither rescale attribute and payload [3]. -/
theorem c6_witness :
    get_scaled_image ⟨none, none, some [3]⟩ = some ([3].map (fun x : ℚ => x * 1 + 0)) ∧
      [3].map (fun x : ℚ => x * 1 + 0) = [(3 : ℚ)] :=
  c6_rescale_defaults ⟨none, none, some [3]⟩ [3] rfl (Or.inl rfl) (Or.inl rfl)

/-! ## Claim C10 -/

/-- C10: a present but falsy RescaleSlope (numeric 0, empty string, or None)
is silently replaced by the default 1: the returned image is
`raw * 1 + intercept`, not the all-intercept image `raw * 0 + intercept`. -/
theorem c10_falsy_slope_replaced (dcm : Dcm) (px : List ℚ) (v : PyVal) (ri : ℚ)
    (hpx : dcm.pixel_data = some px)
    (hs : dcm.rescaleSlope = some v) (hv : pyTruthy v = false)
    (hi : rescale_param dcm.rescaleIntercept 0 = some ri) :
    get_scaled_image dcm = some (px.map (fun x => x * 1 + ri)) := by
  have h1 : rescale_param dcm.rescaleSlope 1 = some 1 := by
    rw [hs]; exact rescale_param_falsy v hv 1
  exact get_scaled_image_eq dcm 1 ri px h1 hi hpx

/-- C10, witness: slope stored as exactly 0, intercept 7, payload [2]. -/
theorem c10_witness :
    pyTruthy (.pynum 0) = false ∧
      get_scaled_image ⟨some (.pynum 0), some (.pynum 7), some [2]⟩ =
        some ([2].map (fun x : ℚ => x * 1 + 7)) :=
  ⟨rfl, c10_falsy_slope_replaced ⟨some (.pynum 0), some (.pynum 7), some [2]⟩ [2]
    (.pynum 0) 7 rfl rfl rfl rfl⟩

/-! ## Claim C4 -/

/-- C4, counterexample: when reading/parsing the file itself fails,
`get_pixel_data` propagates the failure to the caller instead of caching the
no-image marker — refuting "the failure is never propagated to the caller". -/
theorem c4_counterexample :
    get_pixel_data unreadable_fs fresh_series 0 = .error () := rfl

/-- C4, amended: when the file at a valid uncached index parses but the pixel
payload extraction or rescale inside `get_scaled_image` fails, then
`get_pixel_data` stores the explicit no-image marker `None` in the pixel
cache at that index and returns it (no failure escapes); a failure of the
file read itself, however, propagates. -/
theorem c4_decode_failure_cached (read_file : Filename → Option Dcm) (st : SeriesState)
    (i : ℕ) (dcm : Dcm)
    (hc : st.imgcache i = none)
    (hr : read_file (st.filenames.getD i []) = some dcm)
    (hd : get_scaled_image dcm = none) :
    get_pixel_data read_file st i =
      .ok (none, { st with imgcache := fun j => if j = i then some none else st.imgcache j }) := by
  unfold get_pixel_data
  rw [hc, hr]
  simp only [hd]

/-- C4, witness: a parseable file whose rescale slope is non-numeric, so the
image build fails and the `None` marker is cached at index 0. -/
theorem c4_witness :
    fresh_series.imgcache 0 = none ∧
      get_pixel_data (fun _ => some ⟨some (.pystr "abc"), none, some [1]⟩) fresh_series 0 =
        .ok (none,
          { fresh_series with
            imgcache := fun j => if j = 0 then some none else fresh_series.imgcache j }) :=
  ⟨rfl, c4_decode_failure_cached (fun _ => some ⟨some (.pystr "abc"), none, some [1]⟩)
    fresh_series 0 ⟨some (.pystr "abc"), none, some [1]⟩ rfl rfl rfl⟩

/-! ## Claim C5 -/

/-- C5: both caches are idempotent: once `get_attr_object` returns a value for
an index, any later call for that index returns the identical value and state
against any filesystem (no re-parse); likewise, once `get_pixel_data` has
populated the pixel cache at an index, every later call returns the cached
result even if the file has changed or become unreadable. -/
theorem c5_cache_idempotent (read_file : Filename → Option Dcm) (st : SeriesState) (i : ℕ) :
    (∀ dcm st1, get_attr_object read_file st i = .ok (dcm, st1) →
      ∀ read2, get_attr_object read2 st1 i = .ok (dcm, st1)) ∧
    (∀ img st2, get_pixel_data read_file st i = .ok (img, st2) →
      ∀ read2, get_pixel_data read2 st2 i = .ok (img, st2)) := by
  constructor
  · intro dcm st1 h read2
    unfold get_attr_object at h ⊢
    cases hc : st.attrcache i with
    | some a =>
      rw [hc] at h
      simp only [Except.ok.injEq, Prod.mk.injEq] at h
      obtain ⟨rfl, rfl⟩ := h
      rw [hc]
    | none =>
      rw [hc] at h
      cases hr : read_file (st.filenames.getD i []) with
      | none => rw [hr] at h; exact absurd h (by simp)
      | some d =>
        rw [hr] at h
        simp only [Except.ok.injEq, Prod.mk.injEq] at h
        obtain ⟨rfl, rfl⟩ := h
        simp
  · intro img st2 h read2
    unfold get_pixel_data at h ⊢
    cases hc : st.imgcache i with
    | some a =>
      rw [hc] at h
      simp only [Except.ok.injEq, Prod.mk.injEq] at h
      obtain ⟨rfl, rfl⟩ := h
      rw [hc]
    | none =>
      rw [hc] at h
      cases hr : read_file (st.filenames.getD i []) with
      | none => rw [hr] at h; exact absurd h (by simp)
      | some d =>
        rw [hr] at h
        simp only [Except.ok.injEq, Prod.mk.injEq] at h
        obtain ⟨rfl, rfl⟩ := h
        simp

/-- C5, witness: with index 0 cached, both accessors return the cached values
unchanged even against a filesystem in which every read fails. -/
theorem c5_witness :
    get_attr_object (fun _ => none) cached_series 0 =
        .ok (⟨none, none, some [2]⟩, cached_series) ∧
      get_pixel_data (fun _ => none) cached_series 0 = .ok (some [2], cached_series) :=
  ⟨(c5_cache_idempotent (fun _ => none) cached_series 0).1 _ _ rfl (fun _ => none),
   (c5_cache_idempotent (fun _ => none) cached_series 0).2 _ _ rfl (fun _ => none)⟩

/-! ## Claim C7 -/

/-- C7, counterexample: for a root that does not exist, `load_dicom_dir`
returns normally with the empty series list — it does not fail with a
NotFoundError-class error. -/
theorem c7_counterexample :
    "missing" ∉ no_roots_fs.dirs ∧
      load_dicom_dir no_roots_fs (fun _ => none) "missing" = .ok [] :=
  ⟨by simp [no_roots_fs], rfl⟩

/-- C7, amended: for every root path that does not exist, `load_dicom_dir`
returns the empty (success) result: the recursive glob matches nothing, the
zero-file short-circuit fires, and no error of any kind is raised. -/
theorem c7_missing_root (fs : FileSys) (parse : Filename → Option (Option String))
    (rootdir : String) (h : rootdir ∉ fs.dirs) :
    load_dicom_dir fs parse rootdir = .ok [] := by
  unfold load_dicom_dir scan_files
  rw [if_neg h]
  rfl

/-- C7, witness: a filesystem knowing only root "s", scanned at root "r". -/
theorem c7_witness :
    "r" ∉ (⟨["s"], fun _ => []⟩ : FileSys).dirs ∧
      load_dicom_dir ⟨["s"], fun _ => []⟩ (fun _ => none) "r" = .ok [] :=
  ⟨by decide, c7_missing_root ⟨["s"], fun _ => []⟩ (fun _ => none) "r" (by decide)⟩

/-! ## Claim C8 -/

/-- C8, counterexample: the scanning step of the current `load_dicom_dir`
performs no name-based exclusion, so a file named "DICOMDIR" does appear in
the candidate list handed to the parallel extractor. -/
theorem c8_counterexample :
    ['D', 'I', 'C', 'O', 'M', 'D', 'I', 'R'] ∈ scan_files dicomdir_fs "r" := by decide

/-- C8, amended: the legacy `loadDicomDir` scan produces exactly the files
beneath the root except those whose name matches the reserved index filename
case-insensitively (name-based only); the current `load_dicom_dir` scan
instead produces every file with no exclusion. -/
theorem c8_scan_filtering (fs : FileSys) (rootdir : String) (h : rootdir ∈ fs.dirs) :
    (∀ f, f ∈ scan_files_legacy fs rootdir ↔
      f ∈ fs.files rootdir ∧ f.map Char.toLower ≠ dicomdir_name) ∧
    (∀ f, f ∈ scan_files fs rootdir ↔ f ∈ fs.files rootdir) := by
  constructor <;> intro f
  · simp [scan_files_legacy, if_pos h, List.mem_filter]
  · simp [scan_files, if_pos h]

/-- C8, witness: in the concrete filesystem, the legacy scan excludes the
"DICOMDIR" entry (its lowercased name is the reserved name) while keeping the
data file. -/
theorem c8_witness :
    "r" ∈ dicomdir_fs.dirs ∧
      (['D', 'I', 'C', 'O', 'M', 'D', 'I', 'R'] ∈ scan_files_legacy dicomdir_fs "r" ↔
        ['D', 'I', 'C', 'O', 'M', 'D', 'I', 'R'] ∈ dicomdir_fs.files "r" ∧
          ['D', 'I', 'C', 'O', 'M', 'D', 'I', 'R'].map Char.toLower ≠ dicomdir_name) :=
  ⟨by decide, (c8_scan_filtering dicomdir_fs "r" (by decide)).1 _⟩

/-! ## Claim C3 -/

theorem group_series_all_none :
    ∀ (results : List (Option ParsedFile)), (∀ r ∈ results, r = none) →
      group_series results = []
  | [], _ => rfl
  | r :: rs, h => by
    have hr := h r (List.mem_cons_self r rs)
    subst hr
    have ih := group_series_all_none rs (fun x hx => h x (List.mem_cons_of_mem _ hx))
    simpa [group_series] using ih

/-- C3: whole-or-nothing acceptance — if every candidate file failed to parse,
or some resulting series has an empty file list, the source is not appended to
the source list at all: the application state is unchanged. -/
theorem c3_whole_source_rejection (srclist : List (String × List (String × List Filename)))
    (src : String) (results : List (Option ParsedFile))
    (h : (∀ r ∈ results, r = none) ∨ ∃ s ∈ group_series results, s.2 = []) :
    load_source_step srclist src results = srclist := by
  unfold load_source_step
  rcases h with h | ⟨s, hs, hemp⟩
  · rw [group_series_all_none results h]
    rfl
  · have hall : (group_series results).all (fun s => !s.2.isEmpty) = false := by
      rw [List.all_eq_false]
      exact ⟨s, hs, by simp [hemp]⟩
    simp [hall]

/-- C3, witness: two unparseable files leave the empty source list empty. -/
theorem c3_witness :
    (∀ r ∈ ([none, none] : List (Option ParsedFile)), r = none) ∧
      load_source_step [] "s" [none, none] = [] :=
  ⟨by simp, c3_whole_source_rejection [] "s" [none, none] (Or.inl (by simp))⟩

/-! ## Claim C2 -/

theorem zip_map_fst_snd {α β : Type} :
    ∀ (l : List (α × β)), (l.map Prod.fst).zip (l.map Prod.snd) = l
  | [] => rfl
  | p :: ps => by simp [zip_map_fst_snd ps]

/-- C2: after the post-ingestion sort, the filename sequence is
lexicographically non-decreasing and the load-attribute sequence is permuted
jointly with it: the zipped (filename, load-attribute) sequence after sorting
is a permutation of the one before, so the pairing is preserved.  The
hypothesis restricts to duplicate-free filename lists, the domain on which
the embedding matches Python (`sorted` on pairs would otherwise compare the
attribute maps themselves). -/
theorem c2_joint_sort {A : Type} (filenames : List Filename) (loadattrs : List A)
    (_hnd : filenames.Nodup) :
    ((sort_filenames filenames loadattrs).1).Sorted (· ≤ ·) ∧
      List.Perm
        ((sort_filenames filenames loadattrs).1.zip (sort_filenames filenames loadattrs).2)
        (filenames.zip loadattrs) := by
  unfold sort_filenames
  constructor
  · have hs :
        List.Sorted (fun p q : Filename × A => p.1 ≤ q.1)
          ((filenames.zip loadattrs).insertionSort (fun p q => p.1 ≤ q.1)) :=
      List.sorted_insertionSort _ _
    exact hs.map Prod.fst (fun a b hab => hab)
  · rw [zip_map_fst_snd]
    exact List.perm_insertionSort _ _

/-- C2, witness: two files out of order together with distinct attributes. -/
theorem c2_witness :
    ([['b'], ['a']] : List Filename).Nodup ∧
      ((sort_filenames [['b'], ['a']] [(1 : ℕ), 2]).1).Sorted (· ≤ ·) ∧
      List.Perm
        ((sort_filenames [['b'], ['a']] [(1 : ℕ), 2]).1.zip
          (sort_filenames [['b'], ['a']] [(1 : ℕ), 2]).2)
        ([['b'], ['a']].zip [(1 : ℕ), 2]) :=
  ⟨by decide, c2_joint_sort [['b'], ['a']] [(1 : ℕ), 2] (by decide)⟩

/-! ## Claim C9 -/

theorem guard_2d_iff (img : NDArray) :
    (decide (img.shape.length ≤ 2) ||
        (decide (img.shape.length = 3) && color_dim img.shape)) = true ↔
      (img.shape.length ≤ 2 ∨
        (img.shape.length = 3 ∧
          (img.shape.getLastD 0 = 1 ∨ img.shape.getLastD 0 = 3 ∨ img.shape.getLastD 0 = 4))) := by
  simp only [Bool.or_eq_true, Bool.and_eq_true, decide_eq_true_eq, color_dim, isColorLast]
  constructor
  · rintro (h | ⟨h3, _, hc⟩)
    · exact Or.inl h
    · exact Or.inr ⟨h3, hc⟩
  · rintro (h | ⟨h3, hc⟩)
    · exact Or.inl h
    · exact Or.inr ⟨h3, by omega, hc⟩

/-- C9: `get_2d_equivalent_image` returns its input unchanged when the rank is
at most 2, or the rank is 3 with a trailing dimension of size 1, 3 or 4; for
any other shape it returns the slice selecting the middle index (size / 2)
along every leading dimension before the trailing `num_stop` spatial/channel
dimensions. -/
theorem c9_2d_reduction (img : NDArray) :
    (img.shape.length ≤ 2 ∨
        (img.shape.length = 3 ∧
          (img.shape.getLastD 0 = 1 ∨ img.shape.getLastD 0 = 3 ∨ img.shape.getLastD 0 = 4)) →
      get_2d_equivalent_image img = img) ∧
    (¬(img.shape.length ≤ 2 ∨
        (img.shape.length = 3 ∧
          (img.shape.getLastD 0 = 1 ∨ img.shape.getLastD 0 = 3 ∨ img.shape.getLastD 0 = 4))) →
      (get_2d_equivalent_image img).shape =
          img.shape.drop (img.shape.length - num_stop img.shape) ∧
        ∀ js, (get_2d_equivalent_image img).data js =
          img.data
            (((img.shape.take (img.shape.length - num_stop img.shape)).map
                (fun s => s / 2)) ++ js)) := by
  constructor
  · intro h
    simp only [get_2d_equivalent_image]
    rw [if_pos ((guard_2d_iff img).mpr h)]
  · intro h
    simp only [get_2d_equivalent_image]
    rw [if_neg (fun hg => h ((guard_2d_iff img).mp hg))]
    exact ⟨rfl, fun js => rfl⟩

/-- C9, witness: the (8, 8, 3) array passes through unchanged, while the
(5, 3, 8, 8) array is reduced to the 2D slice at the middle index of each of
its two leading dimensions. -/
theorem c9_witness :
    get_2d_equivalent_image rgb_image = rgb_image ∧
      (get_2d_equivalent_image volume_image).shape =
        volume_image.shape.drop (volume_image.shape.length - num_stop volume_image.shape) ∧
      (get_2d_equivalent_image volume_image).data [0, 0] =
        volume_image.data
          (((volume_image.shape.take
                (volume_image.shape.length - num_stop volume_image.shape)).map
              (fun s => s / 2)) ++ [0, 0]) :=
  ⟨(c9_2d_reduction rgb_image).1 (by decide),
   ((c9_2d_reduction volume_image).2 (by decide)).1,
   ((c9_2d_reduction volume_image).2 (by decide)).2 [0, 0]⟩

/-! ## Claim C1 -/

theorem trigger_times_eq_sort (loadattrs : List (Option ℤ)) :
    trigger_times loadattrs = (distinct_times loadattrs).sort (· ≤ ·) := by
  refine @List.eq_of_perm_of_sorted ℤ (· ≤ ·) _ _ _ ?_ ?_ ?_
  · unfold trigger_times
    rw [List.perm_ext_iff_of_nodup
        ((List.perm_insertionSort _ _).symm.nodup
          (List.nodup_dedup (loadattrs.map (fun a => a.getD 0))))
        (Finset.sort_nodup _ _)]
    intro a
    simp [distinct_times, List.mem_insertionSort, List.mem_dedup, Finset.mem_sort,
      List.mem_toFinset]
  · exact List.sorted_insertionSort _ _
  · exact Finset.sort_sorted _ _

theorem sort_headD_eq_min {s : Finset ℤ} (hs : s.Nonempty) :
    (s.sort (· ≤ ·)).headD 0 = s.min' hs := by
  have hlen : 0 < (s.sort (· ≤ ·)).length := by
    rw [Finset.length_sort]
    exact Finset.card_pos.mpr hs
  have hgen : ∀ (l : List ℤ) (h : 0 < l.length), l.headD 0 = l.get ⟨0, h⟩ := by
    intro l h
    cases l with
    | nil => simp at h
    | cons a t => rfl
  rw [hgen _ hlen]
  exact Finset.sorted_zero_eq_min'_aux s hlen hs

theorem sort_getLastD_eq_max {s : Finset ℤ} (hs : s.Nonempty) :
    (s.sort (· ≤ ·)).getLastD 0 = s.max' hs := by
  have hlen : (s.sort (· ≤ ·)).length - 1 < (s.sort (· ≤ ·)).length := by
    rw [Finset.length_sort]
    exact Nat.sub_lt (Finset.card_pos.mpr hs) Nat.zero_lt_one
  have hgen : ∀ (l : List ℤ) (h : l.length - 1 < l.length),
      l.getLastD 0 = l.get ⟨l.length - 1, h⟩ := by
    intro l h
    cases l with
    | nil => simp at h
    | cons a t =>
      rw [List.getLastD_cons, ← List.getLast_eq_getLastD a t (by simp),
        List.getLast_eq_getElem]
      simp [List.get_eq_getElem]
  rw [hgen _ hlen]
  have haux := Finset.sorted_last_eq_max'_aux s hlen hs
  simpa [List.get_eq_getElem] using haux

theorem sum_zipWith_sub :
    ∀ (l : List ℤ), l ≠ [] →
      (List.zipWith (fun a b => b - a) l l.tail).sum = l.getLastD 0 - l.headD 0
  | [], h => absurd rfl h
  | [x], _ => by simp
  | x :: y :: t, _ => by
    have ih := sum_zipWith_sub (y :: t) (by simp)
    simp only [List.tail_cons] at ih ⊢
    rw [List.zipWith_cons_cons, List.sum_cons, ih]
    simp only [List.headD_cons, List.getLastD_cons]
    omega

/-- C1, counterexample: a series with the single non-zero temporal value 5
yields (5, 0.0, 2) — the duplicated singleton list has length 2, so the
returned count is 2, not the claimed 1. -/
theorem c1_counterexample :
    get_timestep_spec [some 5] = (5, 0, 2) ∧
      get_timestep_spec [some 5] ≠ ((5 : ℚ), (0 : ℚ), (1 : ℚ)) := by
  have h : trigger_times [some 5] = [5] := by decide
  have h2 : get_timestep_spec [some 5] = (5, 0, 2) := by
    simp only [get_timestep_spec, h]
    rw [if_neg (by simp : ¬(([5] : List ℤ) = [] ∨ ([5] : List ℤ) = [0]))]
    norm_num
  refine ⟨h2, ?_⟩
  rw [h2]
  norm_num [Prod.ext_iff]

/-- C1, amended: with the default temporal attribute, `get_timestep_spec`
computes over the sorted distinct values (missing treated as 0): an empty
value set or only the value 0 yields (0, 0, 0); exactly one non-zero distinct
value v yields (v, 0.0, 2) (the singleton is duplicated, giving a zero
interval, and the count returned is the length 2 of the duplicated list);
otherwise it returns the smallest value, the average of consecutive
differences — equal to (max - min)/(n - 1) — and the number n of distinct
values. -/
theorem c1_timestep_spec (loadattrs : List (Option ℤ)) :
    (distinct_times loadattrs = ∅ ∨ distinct_times loadattrs = {0} →
      get_timestep_spec loadattrs = (0, 0, 0)) ∧
    (∀ v : ℤ, v ≠ 0 → distinct_times loadattrs = {v} →
      get_timestep_spec loadattrs = ((v : ℚ), 0, 2)) ∧
    (∀ hne : (distinct_times loadattrs).Nonempty, 1 < (distinct_times loadattrs).card →
      get_timestep_spec loadattrs =
        (((distinct_times loadattrs).min' hne : ℚ),
          (((distinct_times loadattrs).max' hne - (distinct_times loadattrs).min' hne : ℤ) : ℚ) /
            (((distinct_times loadattrs).card : ℚ) - 1),
          ((distinct_times loadattrs).card : ℚ))) := by
  refine ⟨?_, ?_, ?_⟩
  · intro h
    simp only [get_timestep_spec, trigger_times_eq_sort]
    rcases h with h | h <;> rw [h]
    · rw [Finset.sort_empty]
      simp
    · rw [Finset.sort_singleton]
      simp
  · intro v hv h
    simp only [get_timestep_spec, trigger_times_eq_sort]
    rw [h, Finset.sort_singleton]
    rw [if_neg (by simp [hv] : ¬(([v] : List ℤ) = [] ∨ ([v] : List ℤ) = [0]))]
    norm_num
  · intro hne hc
    simp only [get_timestep_spec, trigger_times_eq_sort]
    set l := (distinct_times loadattrs).sort (· ≤ ·) with hl
    have hlen : l.length = (distinct_times loadattrs).card := Finset.length_sort _
    have hlnil : l ≠ [] := by
      intro h0
      rw [h0] at hlen
      simp only [List.length_nil] at hlen
      omega
    have hne1 : ¬l.length = 1 := by omega
    have hcond : ¬(l = [] ∨ l = [0]) := by
      rintro (h0 | h0)
      · exact hlnil h0
      · rw [h0] at hlen
        simp only [List.length_cons, List.length_nil] at hlen
        omega
    rw [if_neg hcond, if_neg hne1]
    have hhead : l.headD 0 = (distinct_times loadattrs).min' hne := sort_headD_eq_min hne
    have hlast : l.getLastD 0 = (distinct_times loadattrs).max' hne := sort_getLastD_eq_max hne
    have hsum := sum_zipWith_sub l hlnil
    have hdlen : (List.zipWith (fun a b => b - a) l l.tail).length = l.length - 1 := by
      rw [List.length_zipWith]
      cases l with
      | nil => simp
      | cons a t => simp [Nat.min_def]
    have hcast :
        (((distinct_times loadattrs).card - 1 : ℕ) : ℚ) =
          ((distinct_times loadattrs).card : ℚ) - 1 := by
      have h1 : 1 ≤ (distinct_times loadattrs).card := by omega
      rw [Nat.cast_sub h1, Nat.cast_one]
    rw [hsum, hhead, hlast, hdlen, hlen, hcast]

/-- C1, witness: values {0, 10, 20} give (0, (20 - 0)/(3 - 1), 3) =
(0, 10.0, 3), matching the claim's own example. -/
theorem c1_witness :
    (distinct_times [some 0, some 10, some 20]).Nonempty ∧
      1 < (distinct_times [some 0, some 10, some 20]).card ∧
      get_timestep_spec [some 0, some 10, some 20] = (0, 10, 3) := by
  have hne : (distinct_times [some 0, some 10, some 20]).Nonempty := ⟨0, by decide⟩
  have hc : 1 < (distinct_times [some 0, some 10, some 20]).card := by decide
  have h := (c1_timestep_spec [some 0, some 10, some 20]).2.2 hne hc
  have hmin : (distinct_times [some 0, some 10, some 20]).min' hne = 0 :=
    le_antisymm (Finset.min'_le _ 0 (by decide)) (Finset.le_min' _ _ 0 (by decide))
  have hmax : (distinct_times [some 0, some 10, some 20]).max' hne = 20 :=
    le_antisymm (Finset.max'_le _ _ 20 (by decide)) (Finset.le_max' _ 20 (by decide))
  have hcard : (distinct_times [some 0, some 10, some 20]).card = 3 := by decide
  refine ⟨hne, hc, ?_⟩
  rw [h, hmin, hmax, hcard]
  norm_num
